import Mathlib

/-!
Verification of the GeoDescribe field data-collection tool.

The JavaScript sources are shallowly embedded below: pure functions become
Lean functions over `ℚ`, `ℕ`, `String` and `List Char`; the idb-keyval
store becomes an association list with explicit state passing; operations
that can throw become `Option`-valued.  Each definition mirrors one
function of the repository (named in its doc comment).
-/

namespace GeoDescribe

/-! ## Colour analysis (src/src/App.jsx, `rgbToHsv` / `hsvToRockColourName` / `usePhotoAnalysis`) -/

/-- Hue/saturation/value triple, as produced by `rgbToHsv`. -/
structure HSV where
  h : ℚ
  s : ℚ
  v : ℚ
deriving Repr, DecidableEq

/-- `rgbToHsv(r, g, b)` from App.jsx: divides each channel by 255, computes
max/min/delta and the usual piecewise hue formula (the JS `switch (max)`
tests `case r` first, then `case g`, then `case b`). -/
def rgbToHsv (r g b : ℕ) : HSV :=
  let r' : ℚ := (r : ℚ) / 255
  let g' : ℚ := (g : ℚ) / 255
  let b' : ℚ := (b : ℚ) / 255
  let mx := max r' (max g' b')
  let mn := min r' (min g' b')
  let d := mx - mn
  let h : ℚ :=
    if d = 0 then 0
    else
      (if mx = r' then (g' - b') / d + (if g' < b' then 6 else 0)
       else if mx = g' then (b' - r') / d + 2
       else (r' - g') / d + 4) * 60
  let s : ℚ := if mx = 0 then 0 else d / mx
  { h := h, s := s, v := mx }

/-- `hsvToRockColourName` from App.jsx: threshold rules, checked in source
order (the `v < 0.18` test comes first, before the low-saturation test). -/
def hsvToRockColourName (x : HSV) : String :=
  if x.v < 0.18 then "very dark / black"
  else if x.s < 0.12 then (if x.v > 0.8 then "white" else "grey")
  else if x.h < 20 ∨ x.h ≥ 345 then "red"
  else if x.h < 45 then "orange / ochre"
  else if x.h < 70 then "yellow"
  else if x.h < 160 then "green"
  else if x.h < 250 then "blue"
  else if x.h < 300 then "purple"
  else "brown"

/-- The `ironish` flag computed in `usePhotoAnalysis`:
`(hsv.h < 70 || hsv.h > 340) && hsv.s > 0.3`. -/
def ironish (x : HSV) : Bool :=
  (decide (x.h < 70) || decide (x.h > 340)) && decide (x.s > 0.3)

/-- C3 counterexample: the pure black triple (0,0,0) has saturation 0 < 0.12
and value 0 ≤ 0.8, yet the summarizer returns "very dark / black", not
"grey" — the `v < 0.18` branch is checked before the low-saturation branch. -/
theorem C3_counterexample :
    (rgbToHsv 0 0 0).s < 0.12 ∧ (rgbToHsv 0 0 0).v ≤ 0.8 ∧
    hsvToRockColourName (rgbToHsv 0 0 0) ≠ "grey" := by
  refine ⟨by norm_num [rgbToHsv], by norm_num [rgbToHsv], ?_⟩
  have hb : hsvToRockColourName (rgbToHsv 0 0 0) = "very dark / black" := by
    norm_num [rgbToHsv, hsvToRockColourName]
  rw [hb]
  decide

/-- C3 (amended): for every RGB triple with saturation < 0.12 the summarizer
returns "white" when value > 0.8, "grey" when 0.18 ≤ value ≤ 0.8, and
"very dark / black" when value < 0.18 (the black rule precedes the grey rule). -/
theorem C3_low_saturation_names (r g b : ℕ) (h : (rgbToHsv r g b).s < 0.12) :
    (0.8 < (rgbToHsv r g b).v → hsvToRockColourName (rgbToHsv r g b) = "white") ∧
    (0.18 ≤ (rgbToHsv r g b).v → (rgbToHsv r g b).v ≤ 0.8 →
      hsvToRockColourName (rgbToHsv r g b) = "grey") ∧
    ((rgbToHsv r g b).v < 0.18 →
      hsvToRockColourName (rgbToHsv r g b) = "very dark / black") := by
  refine ⟨?_, ?_, ?_⟩
  · intro hv
    unfold hsvToRockColourName
    split_ifs <;> first | rfl | linarith
  · intro h1 h2
    unfold hsvToRockColourName
    split_ifs <;> first | rfl | linarith
  · intro hv
    unfold hsvToRockColourName
    split_ifs <;> first | rfl | linarith

/-- C3 witness: the theorem applied to the white triple (255,255,255). -/
theorem C3_witness :
    hsvToRockColourName (rgbToHsv 255 255 255) = "white" :=
  (C3_low_saturation_names 255 255 255 (by norm_num [rgbToHsv])).1
    (by norm_num [rgbToHsv])

/-- C5 counterexample: the saturated yellow triple (255,255,0) has hue 60 —
in the yellow band, outside red/orange — yet `ironish` is `true`, because the
flag condition `h < 70` covers the whole yellow band as well. -/
theorem C5_counterexample :
    hsvToRockColourName (rgbToHsv 255 255 0) = "yellow" ∧
    ironish (rgbToHsv 255 255 0) = true := by
  norm_num [rgbToHsv, hsvToRockColourName, ironish]

/-- C5 (amended): the iron-oxide flag is set exactly when hue < 70 or
hue > 340 with saturation > 0.3 — a band that also contains every yellow
hue; in particular any triple the summarizer names "yellow" with
saturation > 0.3 gets the flag. -/
theorem C5_iron_flag (r g b : ℕ) :
    (ironish (rgbToHsv r g b) = true ↔
      (((rgbToHsv r g b).h < 70 ∨ (rgbToHsv r g b).h > 340) ∧
        0.3 < (rgbToHsv r g b).s)) ∧
    (hsvToRockColourName (rgbToHsv r g b) = "yellow" → 0.3 < (rgbToHsv r g b).s →
      ironish (rgbToHsv r g b) = true) := by
  constructor
  · simp [ironish, and_comm]
  · intro hy hs
    have h70 : (rgbToHsv r g b).h < 70 := by
      by_contra hc
      push_neg at hc
      unfold hsvToRockColourName at hy
      split_ifs at hy <;> simp_all <;> linarith
    simp [ironish]
    exact ⟨Or.inl h70, hs⟩

/-- C5 witness: the theorem applied to the yellow triple (255,255,0). -/
theorem C5_witness : ironish (rgbToHsv 255 255 0) = true :=
  (C5_iron_flag 255 255 0).2 (by norm_num [rgbToHsv, hsvToRockColourName])
    (by norm_num [rgbToHsv])

/-! ## Form state and persisted record (src/src/App.jsx, `makeDefaultForm`,
autosave payload; src/unnamed/part_004, sample storage) -/

/-- The form record of App.jsx (`makeDefaultForm` lists every field). -/
structure Form where
  project : String
  sampleId : String
  date : String
  lat : String
  lon : String
  elevation : String
  category : String
  weatheringGrade : String
  colourFresh : String
  colourWeathered : String
  lustre : String
  grainSize : String
  fabric : String
  hardness : String
  hcl : String
  magnetism : String
  streak : String
  sg : String
  alteration : List String
  minerals : List String
  sulfides : List String
  fabricNotes : String
  mineralizationNotes : String
  structures : String
  hostUnit : String
  context : String
  sampleType : String
  sampleLength_m : String
  pxrf : String
  notes : String
deriving Repr, DecidableEq

/-- `generateSampleId()` from App.jsx: it constructs a `Date` (bound to the
unused local `t`) and returns the template literal `` `MDO` `` — a constant. -/
def generateSampleId : String := "MDO"

/-- `makeDefaultForm()` from App.jsx.  The impure `new Date().toISOString()`
is passed in as `nowIso`; the source keeps `.slice(0, 16)` of it. -/
def makeDefaultForm (nowIso : String) : Form :=
  { project := ""
    sampleId := generateSampleId
    date := nowIso.take 16
    lat := ""
    lon := ""
    elevation := ""
    category := "Gossan / Iron-oxide"
    weatheringGrade := "Strong"
    colourFresh := ""
    colourWeathered := ""
    lustre := "Earthy"
    grainSize := ""
    fabric := "Massive"
    hardness := ""
    hcl := "None"
    magnetism := "None"
    streak := ""
    sg := ""
    alteration := []
    minerals := []
    sulfides := []
    fabricNotes := ""
    mineralizationNotes := ""
    structures := ""
    hostUnit := ""
    context := "Outcrop"
    sampleType := "Grab"
    sampleLength_m := ""
    pxrf := ""
    notes := "" }

/-- The photo-scan summary object set by `usePhotoAnalysis`
(`{ avgRGB, hsv, primaryColourName, ironish }`). -/
structure PhotoScan where
  avgR : ℕ
  avgG : ℕ
  avgB : ℕ
  hsv : HSV
  primaryColourName : String
  ironOxideHint : Bool
deriving Repr, DecidableEq

/-- Per-element summary record returned by `stat` in `pxrfStats`. -/
structure Stats where
  n : ℕ
  min : ℚ
  median : ℚ
  mean : ℚ
  max : ℚ
deriving Repr, DecidableEq

/-- A parsed CSV row: the `Object.fromEntries` object as an ordered entry
list.  Later entries shadow earlier ones, matching JS object semantics. -/
abbrev Row := List (String × String)

/-- `row[k]` on a `fromEntries` object: the last entry for `k`, if any
(later duplicate keys shadow earlier ones, as in `Object.fromEntries`). -/
def objGet : Row → String → Option String
  | [], _ => none
  | (k', v) :: rest, k =>
    match objGet rest k with
    | some r => some r
    | none => if k' == k then some v else none

/-- The `pxrf` slot of the autosave payload: `{ rows, summary }`. -/
structure PxrfData where
  rows : List Row
  summary : List (String × Option Stats)
deriving Repr, DecidableEq

/-- The autosave payload built in App.jsx:
`{ form, photo, photos, pxrf, createdAt }`. -/
structure Payload where
  form : Form
  photo : Option PhotoScan
  photos : List String
  pxrf : PxrfData
  createdAt : String
deriving Repr, DecidableEq

/-- The idb-keyval database: an association list from keys to payloads,
most recent write first. -/
abbrev Store := List (String × Payload)

/-- idb-keyval `set`: overwrite any previous value under the key. -/
def storeSet (st : Store) (k : String) (v : Payload) : Store :=
  (k, v) :: List.filter (fun e => e.1 != k) st

/-- idb-keyval `get`: the value under the key, or an absent result. -/
def storeGet (st : Store) (k : String) : Option Payload :=
  (List.find? (fun e => e.1 == k) st).map Prod.snd

/-- idb-keyval `del`: remove the key. -/
def storeDel (st : Store) (k : String) : Store :=
  List.filter (fun e => e.1 != k) st

/-- idb-keyval `keys`: every key in the database. -/
def storeKeys (st : Store) : List String :=
  List.map Prod.fst st

/-- `key(id)` from src/unnamed/part_004: `` `sample:${id}` ``. -/
def sampleKey (id : String) : String := "sample:" ++ id

/-- `saveSample(payload)`: writes the payload under `sample:<form.sampleId>`. -/
def saveSample (st : Store) (p : Payload) : Store :=
  storeSet st (sampleKey p.form.sampleId) p

/-- `loadSample(id)`: reads the payload under `sample:<id>`. -/
def loadSample (st : Store) (id : String) : Option Payload :=
  storeGet st (sampleKey id)

/-- `deleteSample(id)`: deletes the key `sample:<id>`. -/
def deleteSample (st : Store) (id : String) : Store :=
  storeDel st (sampleKey id)

/-- JavaScript `String.prototype.split` with a one-character separator,
on the underlying character list: `"".split` is `[""]`, a trailing
separator yields a trailing empty segment. -/
def jsSplit (sep : Char) : List Char → List (List Char)
  | [] => [[]]
  | c :: cs =>
    match jsSplit sep cs with
    | [] => [[]]
    | h :: t => if c = sep then [] :: h :: t else (c :: h) :: t

/-- Boolean list-prefix test, modelling `String.prototype.startsWith`. -/
def listPrefix : List Char → List Char → Bool
  | [], _ => true
  | _ :: _, [] => false
  | p :: ps, c :: cs => p == c && listPrefix ps cs

/-- `String(k).split(':')[1]` as used by `listSamples`. -/
def extractId (k : String) : String :=
  String.mk ((jsSplit ':' k.data).getD 1 [])

/-- One entry of the `listSamples()` result:
`{ id, project, date, hasPhotos }`. -/
structure SampleSummary where
  id : String
  project : String
  date : String
  hasPhotos : Bool
deriving Repr, DecidableEq

/-- The projection `listSamples` applies to each loaded record
(`s.form.project || '—'` falls back on the em-dash for the empty string). -/
def summarize (id : String) (p : Payload) : SampleSummary :=
  { id := id
    project := if p.form.project = "" then "—" else p.form.project
    date := p.form.date
    hasPhotos := decide (0 < p.photos.length) }

/-- `Promise.all` over a list of fallible operations: succeeds with all
results in order, or fails as a whole if any element fails. -/
def mapOption {α β : Type} (f : α → Option β) : List α → Option (List β)
  | [] => some []
  | a :: as =>
    match f a, mapOption f as with
    | some b, some bs => some (b :: bs)
    | _, _ => none

/-- `listSamples()` from src/unnamed/part_004: enumerate keys, keep those
starting with `sample:`, take `split(':')[1]` as the id, and load + project
each record.  `get` of a missing key yields `undefined`, on which the
projection `s.form.project` throws a TypeError: that failure is the `none`
result of the surrounding `Option`. -/
def listSamples (st : Store) : Option (List SampleSummary) :=
  let ids := List.map extractId
    (List.filter (fun k => listPrefix "sample:".data k.data) (storeKeys st))
  mapOption (fun id => (loadSample st id).map (summarize id)) ids

/-- C4: persistence round-trip — saving a payload and loading it back by its
form's sample identifier returns the payload unchanged, in every field. -/
theorem C4_save_load_roundtrip (st : Store) (p : Payload) :
    loadSample (saveSample st p) p.form.sampleId = some p := by
  simp [loadSample, saveSample, storeGet, storeSet, List.find?]

/-- A concrete payload used to instantiate hypothesis-bearing theorems. -/
def demoPayload : Payload :=
  { form := makeDefaultForm "2025-04-01T10:00"
    photo := none
    photos := []
    pxrf := { rows := [], summary := [] }
    createdAt := "2025-04-01T10:00:00.000Z" }

/-- C10: `generateSampleId` is the constant "MDO" (its `Date` is unused),
the default form carries it, and saving two payloads that both kept the
default identifier writes them under the same key `sample:MDO` — the second
save leaves a single record, and loading "MDO" returns the second payload. -/
theorem C10_default_id_collision (n1 n2 : String) (st : Store) (p1 p2 : Payload)
    (h1 : p1.form.sampleId = (makeDefaultForm n1).sampleId)
    (h2 : p2.form.sampleId = (makeDefaultForm n2).sampleId) :
    generateSampleId = "MDO" ∧
    (makeDefaultForm n1).sampleId = "MDO" ∧
    saveSample (saveSample [] p1) p2 = [(sampleKey "MDO", p2)] ∧
    loadSample (saveSample (saveSample st p1) p2) "MDO" = some p2 := by
  have e1 : p1.form.sampleId = "MDO" := h1
  have e2 : p2.form.sampleId = "MDO" := h2
  refine ⟨rfl, rfl, ?_, ?_⟩
  · simp [saveSample, storeSet, e1, e2]
  · simp [loadSample, saveSample, storeGet, storeSet, e2, List.find?]

/-- C10 witness: two autosaves of default-created payloads, applied to the
theorem at the concrete `demoPayload`. -/
theorem C10_witness :
    generateSampleId = "MDO" ∧
    (makeDefaultForm "2025-04-01T10:00").sampleId = "MDO" ∧
    saveSample (saveSample [] demoPayload) demoPayload = [(sampleKey "MDO", demoPayload)] ∧
    loadSample (saveSample (saveSample [] demoPayload) demoPayload) "MDO" = some demoPayload :=
  C10_default_id_collision "2025-04-01T10:00" "2025-04-01T10:00" [] demoPayload demoPayload
    rfl rfl

/-! ### Listing after deletion (claim C8) -/

/-- `jsSplit` always yields at least one segment. -/
theorem jsSplit_ne_nil (sep : Char) (l : List Char) : jsSplit sep l ≠ [] := by
  induction l with
  | nil => simp [jsSplit]
  | cons c cs ih =>
    simp only [jsSplit]
    cases hcs : jsSplit sep cs with
    | nil => exact absurd hcs ih
    | cons h t =>
      by_cases hc : c = sep <;> simp [hc]

/-- Splitting a separator-free list yields that single segment. -/
theorem jsSplit_no_sep (sep : Char) (l : List Char) (h : sep ∉ l) :
    jsSplit sep l = [l] := by
  induction l with
  | nil => rfl
  | cons c cs ih =>
    have hc : c ≠ sep := fun e => h (e ▸ List.mem_cons_self c cs)
    have hcs : sep ∉ cs := fun m => h (List.mem_cons_of_mem c m)
    simp [jsSplit, ih hcs, hc]

/-- Splitting at the first separator occurrence. -/
theorem jsSplit_append (sep : Char) (l₁ l₂ : List Char) (h : sep ∉ l₁) :
    jsSplit sep (l₁ ++ sep :: l₂) = l₁ :: jsSplit sep l₂ := by
  induction l₁ with
  | nil =>
    cases hs : jsSplit sep l₂ with
    | nil => exact absurd hs (jsSplit_ne_nil sep l₂)
    | cons a t => simp [jsSplit, hs]
  | cons c cs ih =>
    have hc : c ≠ sep := fun e => h (e ▸ List.mem_cons_self c cs)
    have hcs : sep ∉ cs := fun m => h (List.mem_cons_of_mem c m)
    simp only [List.cons_append, jsSplit, List.append_eq]
    rw [ih hcs]
    simp [hc]

/-- `startsWith` holds for any extension of the prefix. -/
theorem listPrefix_append (p t : List Char) : listPrefix p (p ++ t) = true := by
  induction p with
  | nil => rfl
  | cons c cs ih => simp [listPrefix, ih]

/-- The characters of a `sample:` key. -/
theorem sampleKey_data (id : String) :
    (sampleKey id).data = "sample".data ++ ':' :: id.data := by
  simp [sampleKey, String.data_append]

/-- Distinct identifiers give distinct `sample:` keys. -/
theorem sampleKey_inj {a b : String} (h : sampleKey a = sampleKey b) : a = b := by
  cases a with
  | mk la =>
    cases b with
    | mk lb =>
      simp only [sampleKey, String.ext_iff, String.data_append] at h ⊢
      exact List.append_cancel_left h

/-- For a colon-free identifier, `split(':')[1]` of its key recovers it. -/
theorem extractId_sampleKey (id : String) (h : ':' ∉ id.data) :
    extractId (sampleKey id) = id := by
  have hs : (jsSplit ':' (sampleKey id).data) = ["sample".data, id.data] := by
    rw [sampleKey_data, jsSplit_append ':' _ _ (by decide), jsSplit_no_sep ':' _ h]
  simp only [extractId, hs]
  cases id with
  | mk l => rfl

/-- If every element maps to a success whose result satisfies `Q`, then
`mapOption` succeeds and every result satisfies `Q`. -/
theorem mapOption_forall {α β : Type} (f : α → Option β) (Q : β → Prop) :
    ∀ l : List α, (∀ a ∈ l, ∃ b, f a = some b ∧ Q b) →
    ∃ r, mapOption f l = some r ∧ ∀ b ∈ r, Q b := by
  intro l
  induction l with
  | nil => exact fun _ => ⟨[], rfl, by simp⟩
  | cons a as ih =>
    intro h
    obtain ⟨b, hb, hQ⟩ := h a (List.mem_cons_self a as)
    obtain ⟨r, hr, hQr⟩ := ih (fun x hx => h x (List.mem_cons_of_mem a hx))
    refine ⟨b :: r, by simp [mapOption, hb, hr], ?_⟩
    intro x hx
    rcases List.mem_cons.1 hx with hxb | hxr
    · exact hxb ▸ hQ
    · exact hQr x hxr

/-- A payload with a colon-free identifier "y". -/
def payloadY : Payload :=
  { demoPayload with form := { makeDefaultForm "t" with sampleId := "y" } }

/-- A payload whose identifier "y:z" contains a colon. -/
def payloadYZ : Payload :=
  { demoPayload with form := { makeDefaultForm "t" with sampleId := "y:z" } }

/-- A store holding the records "y" and "y:z". -/
def c8Store : Store := saveSample (saveSample [] payloadY) payloadYZ

/-- C8 counterexample: with records "y" and "y:z" stored, deleting "y" and
then listing does not return any list at all: the surviving key
`sample:y:z` yields the id `split(':')[1] = "y"`, whose `get` is
`undefined`, so the projection inside `listSamples` throws.  In particular
no list excluding the deleted identifier is returned (loading "y" is
absent, as claimed). -/
theorem C8_counterexample :
    loadSample (deleteSample c8Store "y") "y" = none ∧
    listSamples (deleteSample c8Store "y") = none := by
  constructor <;> rfl

/-- C8 (amended): provided every stored record sits under the key derived
from its own colon-free identifier, deleting a record and then listing
succeeds and omits the deleted identifier; loading the deleted identifier
returns an absent result (the latter holds for arbitrary stores). -/
theorem C8_delete_then_list (st : Store) (id : String)
    (hwf : ∀ e ∈ st, e.1 = sampleKey e.2.form.sampleId ∧ ':' ∉ e.2.form.sampleId.data) :
    loadSample (deleteSample st id) id = none ∧
    ∃ l, listSamples (deleteSample st id) = some l ∧ ∀ s ∈ l, s.id ≠ id := by
  constructor
  · simp only [loadSample, deleteSample, storeGet, storeDel]
    rw [List.find?_eq_none.2]
    · rfl
    · intro e he
      have := (List.mem_filter.1 he).2
      simpa using this
  · have hyp : ∀ a ∈ List.map extractId
        (List.filter (fun k => listPrefix "sample:".data k.data)
          (storeKeys (deleteSample st id))),
        ∃ b, ((loadSample (deleteSample st id) a).map (summarize a)) = some b ∧
          b.id ≠ id := by
      intro a ha
      simp only [List.mem_map] at ha
      obtain ⟨k, hk, hka⟩ := ha
      have hkf := List.mem_filter.1 hk
      simp only [storeKeys, List.mem_map, deleteSample, storeDel] at hkf
      obtain ⟨⟨e, he, hek⟩, _⟩ := hkf
      have hef := List.mem_filter.1 he
      obtain ⟨hkey, hfree⟩ := hwf e hef.1
      have hne : e.2.form.sampleId ≠ id := by
        intro hcontra
        have h1 : e.1 = sampleKey id := by rw [hkey, hcontra]
        have h2 := hef.2
        rw [h1] at h2
        simp at h2
      have hida : a = e.2.form.sampleId := by
        rw [← hka, ← hek, hkey, extractId_sampleKey _ hfree]
      have hsome : (List.find? (fun x => x.1 == sampleKey a)
          (List.filter (fun x => x.1 != sampleKey id) st)).isSome := by
        rw [List.find?_isSome]
        exact ⟨e, he, by simp [hkey, hida]⟩
      obtain ⟨v, hv⟩ := Option.isSome_iff_exists.1 hsome
      refine ⟨summarize a v.2, ?_, ?_⟩
      · simp [loadSample, deleteSample, storeGet, storeDel, hv]
      · intro hcontra
        apply hne
        rw [← hida]
        simpa [summarize] using hcontra
    obtain ⟨r, hr, hq⟩ := mapOption_forall _ _ _ hyp
    exact ⟨r, hr, hq⟩

/-- C8 witness: the amended theorem applied to a one-record store holding
the colon-free identifier "y". -/
theorem C8_witness :
    loadSample (deleteSample (saveSample [] payloadY) "y") "y" = none ∧
    ∃ l, listSamples (deleteSample (saveSample [] payloadY) "y") = some l ∧
      ∀ s ∈ l, s.id ≠ "y" :=
  C8_delete_then_list (saveSample [] payloadY) "y" (by decide)

/-! ## CSV parsing and pXRF statistics (src/src/App.jsx, `parseCSV` /
`pxrfStats`) -/

/-- Last character of a list (`l.getLast?`, structurally). -/
def lastChar : List Char → Option Char
  | [] => none
  | [c] => some c
  | _ :: c :: cs => lastChar (c :: cs)

/-- All but the last character (`l.dropLast`, structurally). -/
def dropLastChar : List Char → List Char
  | [] => []
  | [_] => []
  | c :: c' :: cs => c :: dropLastChar (c' :: cs)

/-- Number of double-quote characters in a list. -/
def quoteCount (l : List Char) : ℕ := l.count '"'

/-- The row-splitting regex of `parseCSV`,
`split(/,(?=(?:[^"]*"[^"]*")*[^"]*$)/)`: the lookahead matches exactly when
the rest of the line contains an even number of double quotes, so a comma
splits exactly when it is followed by an even number of `"` characters. -/
def splitQuoted : List Char → List (List Char)
  | [] => [[]]
  | c :: cs =>
    match splitQuoted cs with
    | [] => [[]]
    | h :: t =>
      if c = ',' ∧ quoteCount cs % 2 = 0 then [] :: h :: t else (c :: h) :: t

/-- The cell transform `replace(/^"|"$/g, "")`: one leading double quote is
removed if present, and one trailing double quote is removed if present. -/
def stripQuotes (l : List Char) : List Char :=
  let l1 := match l with
    | '"' :: rest => rest
    | other => other
  if lastChar l1 = some '"' then dropLastChar l1 else l1

/-- Whitespace for the purposes of `String.prototype.trim`. -/
def isWS (c : Char) : Bool := c == ' ' || c == '\t' || c == '\n' || c == '\r'

/-- `String.prototype.trim`: drop leading and trailing whitespace. -/
def jsTrim (l : List Char) : List Char :=
  ((l.dropWhile isWS).reverse.dropWhile isWS).reverse

/-- Strip one trailing carriage return, if present. -/
def stripCR (l : List Char) : List Char :=
  if lastChar l = some '\r' then dropLastChar l else l

/-- `split(/\r?\n/)`: split at newlines, each segment losing one trailing
`\r` if present. -/
def splitLines (l : List Char) : List (List Char) :=
  (jsSplit '\n' l).map stripCR

/-- `parseCSV(text)` from App.jsx: trim, split into lines, split each line
on quote-aware commas, strip surrounding quotes from each cell, use the
first row as headers, and build one object per remaining row with trimmed
header keys and trimmed cell values (`(r[i] ?? "").trim()`). -/
def parseCSV (text : List Char) : List Row :=
  let rows := (splitLines (jsTrim text)).map
    (fun r => (splitQuoted r).map stripQuotes)
  match rows with
  | [] => []
  | headers :: body =>
    body.map (fun r =>
      headers.enum.map (fun ih =>
        (String.mk (jsTrim ih.2), String.mk (jsTrim (r.getD ih.1 [])))))

/-- Characters kept by `replace(/[^0-9.+-eE]/g, "")`.  In that character
class the `-` between `+` and `e` forms a *range*: every character with
code point between `'+'` (43) and `'e'` (101) is kept, alongside digits,
`'.'` and `'E'`. -/
def keepChar (c : Char) : Bool :=
  decide (('0' ≤ c ∧ c ≤ '9') ∨ c = '.' ∨ ('+' ≤ c ∧ c ≤ 'e') ∨ c = 'E')

/-- The sanitising replace inside `num`. -/
def sanitize (l : List Char) : List Char := l.filter keepChar

/-- Numeric value of a digit character. -/
def digVal (c : Char) : ℕ := c.toNat - '0'.toNat

/-- Decimal value of a digit string. -/
def natOfDigits (l : List Char) : ℕ :=
  l.foldl (fun a c => a * 10 + digVal c) 0

/-- A non-empty all-digit string, or failure. -/
def parseNatDigits (l : List Char) : Option ℕ :=
  if l ≠ [] ∧ l.all Char.isDigit then some (natOfDigits l) else none

/-- Scan up to the first character satisfying `stop`. -/
def breakAt (stop : Char → Bool) : List Char → (List Char × List Char)
  | [] => ([], [])
  | c :: cs =>
    if stop c then ([], c :: cs)
    else
      let r := breakAt stop cs
      (c :: r.1, r.2)

/-- The decimal mantissa accepted by JavaScript `Number`: digits, digits
followed by `.` and optional fraction digits, or `.` followed by digits. -/
def parseMantissa (l : List Char) : Option ℚ :=
  match breakAt (fun c => c == '.') l with
  | (ip, []) => (parseNatDigits ip).map (fun n => (n : ℚ))
  | (ip, _ :: fp) =>
    if ip.all Char.isDigit ∧ fp.all Char.isDigit ∧ (ip ≠ [] ∨ fp ≠ []) then
      some ((natOfDigits ip : ℚ) + (natOfDigits fp : ℚ) / 10 ^ fp.length)
    else none

/-- The exponent part accepted by JavaScript `Number`: an optional sign and
mandatory digits. -/
def parseExp (l : List Char) : Option ℤ :=
  match l with
  | '+' :: r => (parseNatDigits r).map (fun n => (n : ℤ))
  | '-' :: r => (parseNatDigits r).map (fun n => -(n : ℤ))
  | r => (parseNatDigits r).map (fun n => (n : ℤ))

/-- JavaScript `Number(string)` on the strings that survive `sanitize`
(no whitespace, no `Infinity`, no hex, since those characters are stripped):
the empty string parses as 0; otherwise an optional sign, a decimal
mantissa and an optional `e`/`E` exponent; anything else is NaN (`none`). -/
def jsNumber (l : List Char) : Option ℚ :=
  if l = [] then some 0
  else
    let sl : ℚ × List Char :=
      match l with
      | '+' :: r => (1, r)
      | '-' :: r => (-1, r)
      | r => (1, r)
    match breakAt (fun c => c == 'e' || c == 'E') sl.2 with
    | (m, []) => (parseMantissa m).map (fun q => sl.1 * q)
    | (m, _ :: er) => do
      let mv ← parseMantissa m
      let ev ← parseExp er
      pure (sl.1 * mv * (10 : ℚ) ^ ev)

/-- `num(v)` from `pxrfStats`:
`v === "" || v == null ? NaN : Number(String(v).replace(/[^0-9.+-eE]/g, ""))`.
NaN is modelled as `none`. -/
def num (v : Option String) : Option ℚ :=
  match v with
  | none => none
  | some s => if s = "" then none else jsNumber (sanitize s.data)

/-- JavaScript `a ?? b` where `a` is a result of `num`: `num` always
returns a number (possibly NaN) and never `null`/`undefined`; NaN is not
nullish, so `??` always keeps the left operand and the fallback is dead. -/
def nanCoalesce (a _b : Option ℚ) : Option ℚ := a

/-- The per-row, per-element value selection in `pxrfStats`:
`num(row[e]) ?? num(row[`e%`]) ?? num(row[`e_ppm`]) ?? num(row[`e_wt%`])`. -/
def extractVal (row : Row) (e : String) : Option ℚ :=
  nanCoalesce
    (nanCoalesce
      (nanCoalesce (num (objGet row e)) (num (objGet row (e ++ "%"))))
      (num (objGet row (e ++ "_ppm"))))
    (num (objGet row (e ++ "_wt%")))

/-- The default element list of `pxrfStats`. -/
def pxrfElems : List String := ["Fe", "Cu", "Zn", "Pb", "As", "Mn"]

/-- Insertion into an ascending list. -/
def insertAsc (x : ℚ) : List ℚ → List ℚ
  | [] => [x]
  | y :: ys => if x ≤ y then x :: y :: ys else y :: insertAsc x ys

/-- `[...arr].sort((a, b) => a - b)`: the values in ascending order. -/
def sortAsc (l : List ℚ) : List ℚ := l.foldr insertAsc []

/-- `stat(arr)` from `pxrfStats`: `null` for an empty list, else count,
`sorted[0]`, `sorted[Math.floor(len/2)]`, `sum/len`, `sorted[len-1]`. -/
def stat (arr : List ℚ) : Option Stats :=
  if arr = [] then none
  else
    let sorted := sortAsc arr
    some { n := arr.length
           min := sorted.getD 0 0
           median := sorted.getD (sorted.length / 2) 0
           mean := arr.sum / (arr.length : ℚ)
           max := sorted.getD (sorted.length - 1) 0 }

/-- `pxrfStats(rows)` from App.jsx with the default element list: for each
element, collect the non-NaN values row by row and summarise them. -/
def pxrfStats (rows : List Row) : List (String × Option Stats) :=
  pxrfElems.map
    (fun e => (e, stat (rows.filterMap (fun row => extractVal row e))))

/-- C1 counterexample: the value `"%"` is not parseable as a number
(JS `Number("%")` is NaN), yet the sanitising replace strips every
character, leaving `""`, and `Number("")` is 0 — so the row contributes a
zero to the Fe statistics instead of being excluded. -/
theorem C1_counterexample :
    num (some "%") = some 0 ∧
    pxrfStats [[("Fe", "%")]] =
      [("Fe", some { n := 1, min := 0, median := 0, mean := 0, max := 0 }),
       ("Cu", none), ("Zn", none), ("Pb", none), ("As", none), ("Mn", none)] := by
  constructor
  · rfl
  · have hFe : List.filterMap (fun row => extractVal row "Fe") [[("Fe", "%")]] =
        [(0 : ℚ)] := rfl
    have hCu : List.filterMap (fun row => extractVal row "Cu") [[("Fe", "%")]] =
        [] := rfl
    have hZn : List.filterMap (fun row => extractVal row "Zn") [[("Fe", "%")]] =
        [] := rfl
    have hPb : List.filterMap (fun row => extractVal row "Pb") [[("Fe", "%")]] =
        [] := rfl
    have hAs : List.filterMap (fun row => extractVal row "As") [[("Fe", "%")]] =
        [] := rfl
    have hMn : List.filterMap (fun row => extractVal row "Mn") [[("Fe", "%")]] =
        [] := rfl
    simp only [pxrfStats, pxrfElems, List.map_cons, List.map_nil]
    rw [hFe, hCu, hZn, hPb, hAs, hMn]
    norm_num [stat, sortAsc, insertAsc]

/-- C1 (amended): a missing or empty value is excluded from the element
statistics (never coerced to zero), and the two-row example import yields
Fe `{n:2, min:12.3, median:15, mean:13.65, max:15}` and Cu
`{n:1, 0.05 throughout}`; however a non-empty value whose characters are
all stripped by the sanitiser (such as `"%"`) is coerced to 0 rather than
excluded. -/
theorem C1_pxrf_example :
    (∀ (row : Row) (e : String),
      objGet row e = none ∨ objGet row e = some "" → extractVal row e = none) ∧
    pxrfStats (parseCSV "Fe,Cu\n12.3,0.05\n15.0,".data) =
      [("Fe", some { n := 2, min := 12.3, median := 15, mean := 13.65, max := 15 }),
       ("Cu", some { n := 1, min := 0.05, median := 0.05, mean := 0.05, max := 0.05 }),
       ("Zn", none), ("Pb", none), ("As", none), ("Mn", none)] := by
  constructor
  · intro row e h
    rcases h with h | h <;> simp [extractVal, nanCoalesce, num, h]
  · have hp : parseCSV "Fe,Cu\n12.3,0.05\n15.0,".data =
        [[("Fe", "12.3"), ("Cu", "0.05")], [("Fe", "15.0"), ("Cu", "")]] := rfl
    have hFe : List.filterMap (fun row => extractVal row "Fe")
        [[("Fe", "12.3"), ("Cu", "0.05")], [("Fe", "15.0"), ("Cu", "")]] =
        [(1:ℚ) * ((12:ℚ) + (3:ℚ)/10^1), (1:ℚ) * ((15:ℚ) + (0:ℚ)/10^1)] := rfl
    have hCu : List.filterMap (fun row => extractVal row "Cu")
        [[("Fe", "12.3"), ("Cu", "0.05")], [("Fe", "15.0"), ("Cu", "")]] =
        [(1:ℚ) * ((0:ℚ) + (5:ℚ)/10^2)] := rfl
    have hZn : List.filterMap (fun row => extractVal row "Zn")
        [[("Fe", "12.3"), ("Cu", "0.05")], [("Fe", "15.0"), ("Cu", "")]] = [] := rfl
    have hPb : List.filterMap (fun row => extractVal row "Pb")
        [[("Fe", "12.3"), ("Cu", "0.05")], [("Fe", "15.0"), ("Cu", "")]] = [] := rfl
    have hAs : List.filterMap (fun row => extractVal row "As")
        [[("Fe", "12.3"), ("Cu", "0.05")], [("Fe", "15.0"), ("Cu", "")]] = [] := rfl
    have hMn : List.filterMap (fun row => extractVal row "Mn")
        [[("Fe", "12.3"), ("Cu", "0.05")], [("Fe", "15.0"), ("Cu", "")]] = [] := rfl
    rw [hp]
    simp only [pxrfStats, pxrfElems, List.map_cons, List.map_nil]
    rw [hFe, hCu, hZn, hPb, hAs, hMn]
    norm_num [stat, sortAsc, insertAsc]
    all_goals intro h
    all_goals simp at h

/-- C1 witness: the exclusion clause applied to a row with no Cu column. -/
theorem C1_witness : extractVal [("Fe", "12.3")] "Cu" = none :=
  C1_pxrf_example.1 [("Fe", "12.3")] "Cu" (Or.inl rfl)

/-- C6: the suffix-variant fallback in `pxrfStats` is dead code.  `num`
always returns a number (NaN for a missing column), and `NaN ?? x`
keeps NaN because NaN is not nullish; so for a CSV with only a `Fe_ppm`
column — whose value "100" parses fine — the Fe statistics are still
empty, although the claim (and the evident intent of the fallback chain)
says the `Fe_ppm` column is used when the exact `Fe` column is absent. -/
theorem C6_fallback_dead :
    num (some "100") = some 100 ∧
    extractVal [("Fe_ppm", "100")] "Fe" = none ∧
    (pxrfStats (parseCSV "Fe_ppm\n100".data)).head? = some ("Fe", none) := by
  refine ⟨?_, rfl, rfl⟩
  have h : num (some "100") = some ((1:ℚ) * ((100:ℕ) : ℚ)) := rfl
  rw [h]
  norm_num

/-! ## Photo downscaling (src/unnamed/part_003, `downscaleDataUrl`) -/

/-- JavaScript `Math.round` on a non-negative quantity: `⌊x + 1/2⌋`. -/
def jsRound (x : ℚ) : ℤ := ⌊x + 1/2⌋

/-- The dimension computation of `downscaleDataUrl`:
`scale = Math.min(1, maxDim / Math.max(w, h))`, then canvas dimensions
`Math.round(w * scale)` by `Math.round(h * scale)`. -/
def downscaleDims (w h maxDim : ℕ) : ℤ × ℤ :=
  let scale : ℚ := min 1 ((maxDim : ℚ) / ((max w h : ℕ) : ℚ))
  (jsRound ((w : ℚ) * scale), jsRound ((h : ℚ) * scale))

/-- One-step unfolding of `downscaleDims`. -/
theorem downscaleDims_eq (w h maxDim : ℕ) :
    downscaleDims w h maxDim =
      (jsRound ((w : ℚ) * min 1 ((maxDim : ℚ) / ((max w h : ℕ) : ℚ))),
       jsRound ((h : ℚ) * min 1 ((maxDim : ℚ) / ((max w h : ℕ) : ℚ)))) := rfl

/-- Rounding moves a value by at most a half. -/
theorem jsRound_abs_le (x : ℚ) : |((jsRound x : ℤ) : ℚ) - x| ≤ 1/2 := by
  have h1 : ((⌊x + 1/2⌋ : ℤ) : ℚ) ≤ x + 1/2 := Int.floor_le _
  have h2 : x + 1/2 - 1 < ((⌊x + 1/2⌋ : ℤ) : ℚ) := Int.sub_one_lt_floor _
  rw [jsRound, abs_le]
  constructor <;> linarith

/-- Rounding is monotone. -/
theorem jsRound_mono {x y : ℚ} (h : x ≤ y) : jsRound x ≤ jsRound y :=
  Int.floor_le_floor (by linarith)

/-- Rounding an integer value is the identity. -/
theorem jsRound_intCast (n : ℤ) : jsRound (n : ℚ) = n := by
  rw [jsRound, show ((n : ℚ) + 1/2) = (1/2 : ℚ) + n by ring, Int.floor_add_int]
  norm_num

/-- C7: if the longer edge exceeds 1024 the scaled longer edge is exactly
1024 and each output dimension is within half a unit of exact uniform
scaling (so the aspect ratio is preserved to within one pixel); if the
longer edge is at most 1024 both dimensions are unchanged. -/
theorem C7_downscale (w h : ℕ) :
    (1024 < max w h →
      max (downscaleDims w h 1024).1 (downscaleDims w h 1024).2 = 1024 ∧
      |(((downscaleDims w h 1024).1 : ℤ) : ℚ) -
        w * (1024 / ((max w h : ℕ) : ℚ))| ≤ 1/2 ∧
      |(((downscaleDims w h 1024).2 : ℤ) : ℚ) -
        h * (1024 / ((max w h : ℕ) : ℚ))| ≤ 1/2) ∧
    (max w h ≤ 1024 → downscaleDims w h 1024 = ((w : ℤ), (h : ℤ))) := by
  constructor
  · intro hM
    have hM0 : (0 : ℚ) < ((max w h : ℕ) : ℚ) := by
      have h0 : 0 < max w h := by omega
      exact_mod_cast h0
    have hMle : (1024 : ℚ) ≤ ((max w h : ℕ) : ℚ) := by
      exact_mod_cast hM.le
    have hscale : min 1 ((1024 : ℚ) / ((max w h : ℕ) : ℚ)) =
        (1024 : ℚ) / ((max w h : ℕ) : ℚ) := by
      rw [min_eq_right]
      rw [div_le_one hM0]
      exact hMle
    have hround : jsRound (((max w h : ℕ) : ℚ) *
        ((1024 : ℚ) / ((max w h : ℕ) : ℚ))) = 1024 := by
      have hMq : ((max w h : ℕ) : ℚ) * ((1024 : ℚ) / ((max w h : ℕ) : ℚ)) =
          (1024 : ℚ) := by
        rw [mul_comm]
        exact div_mul_cancel₀ _ (ne_of_gt hM0)
      rw [hMq, show (1024 : ℚ) = ((1024 : ℤ) : ℚ) by norm_num, jsRound_intCast]
    have hle : ∀ x : ℕ, x ≤ max w h →
        jsRound ((x : ℚ) * ((1024 : ℚ) / ((max w h : ℕ) : ℚ))) ≤ 1024 := by
      intro x hx
      have hxq : (x : ℚ) * ((1024 : ℚ) / ((max w h : ℕ) : ℚ)) ≤
          ((max w h : ℕ) : ℚ) * ((1024 : ℚ) / ((max w h : ℕ) : ℚ)) := by
        apply mul_le_mul_of_nonneg_right
        · exact_mod_cast hx
        · positivity
      calc jsRound ((x : ℚ) * ((1024 : ℚ) / ((max w h : ℕ) : ℚ)))
          ≤ jsRound (((max w h : ℕ) : ℚ) *
              ((1024 : ℚ) / ((max w h : ℕ) : ℚ))) := jsRound_mono hxq
        _ = 1024 := hround
    refine ⟨?_, ?_, ?_⟩
    · rw [downscaleDims_eq]
      simp only [Nat.cast_ofNat, hscale]
      rcases Nat.le_total w h with hwh | hwh
      · have hmx : max w h = h := Nat.max_eq_right hwh
        have h2 : jsRound ((h : ℚ) * ((1024 : ℚ) / ((max w h : ℕ) : ℚ))) =
            1024 := by
          rw [hmx] at hround ⊢
          exact hround
        have h1 : jsRound ((w : ℚ) * ((1024 : ℚ) / ((max w h : ℕ) : ℚ))) ≤
            1024 := hle w (Nat.le_max_left w h)
        rw [h2]
        exact max_eq_right h1
      · have hmx : max w h = w := Nat.max_eq_left hwh
        have h2 : jsRound ((w : ℚ) * ((1024 : ℚ) / ((max w h : ℕ) : ℚ))) =
            1024 := by
          rw [hmx] at hround ⊢
          exact hround
        have h1 : jsRound ((h : ℚ) * ((1024 : ℚ) / ((max w h : ℕ) : ℚ))) ≤
            1024 := hle h (Nat.le_max_right w h)
        rw [h2]
        exact max_eq_left h1
    · rw [downscaleDims_eq]
      simp only [Nat.cast_ofNat, hscale]
      exact jsRound_abs_le _
    · rw [downscaleDims_eq]
      simp only [Nat.cast_ofNat, hscale]
      exact jsRound_abs_le _
  · intro hM
    rcases Nat.eq_zero_or_pos (max w h) with hz | hpos
    · have hw0 : w = 0 := by omega
      have hh0 : h = 0 := by omega
      subst hw0
      subst hh0
      rw [downscaleDims_eq]
      have hfloor : ⌊(1/2 : ℚ)⌋ = 0 := by
        norm_num [Int.floor_eq_iff]
      norm_num [jsRound, hfloor]
    · have hp : (0 : ℚ) < ((max w h : ℕ) : ℚ) := by exact_mod_cast hpos
      have hone : (1 : ℚ) ≤ (1024 : ℚ) / ((max w h : ℕ) : ℚ) := by
        rw [le_div_iff hp]
        have hc : ((max w h : ℕ) : ℚ) ≤ 1024 := by exact_mod_cast hM
        linarith
      have hscale1 : min 1 ((1024 : ℚ) / ((max w h : ℕ) : ℚ)) = 1 :=
        min_eq_left hone
      have hrw : jsRound ((w : ℚ) * 1) = (w : ℤ) := by
        rw [mul_one, show ((w : ℕ) : ℚ) = (((w : ℕ) : ℤ) : ℚ) by push_cast; ring,
          jsRound_intCast]
      have hrh : jsRound ((h : ℚ) * 1) = (h : ℤ) := by
        rw [mul_one, show ((h : ℕ) : ℚ) = (((h : ℕ) : ℤ) : ℚ) by push_cast; ring,
          jsRound_intCast]
      rw [downscaleDims_eq]
      simp only [Nat.cast_ofNat, hscale1]
      rw [hrw, hrh]

/-- C7 witness: the theorem applied to a 2048 by 1536 image (scaled to
1024 by 768) and to an 800 by 600 image (unchanged). -/
theorem C7_witness :
    (max (downscaleDims 2048 1536 1024).1 (downscaleDims 2048 1536 1024).2 = 1024 ∧
      |(((downscaleDims 2048 1536 1024).1 : ℤ) : ℚ) -
        2048 * (1024 / ((max 2048 1536 : ℕ) : ℚ))| ≤ 1/2 ∧
      |(((downscaleDims 2048 1536 1024).2 : ℤ) : ℚ) -
        1536 * (1024 / ((max 2048 1536 : ℕ) : ℚ))| ≤ 1/2) ∧
    downscaleDims 800 600 1024 = ((800 : ℤ), (600 : ℤ)) := by
  constructor
  · have hmain := (C7_downscale 2048 1536).1 (by norm_num)
    convert hmain using 4 <;> norm_num
  · exact (C7_downscale 800 600).2 (by norm_num)

/-! ## Photo list operations (App.jsx / src/unnamed/part_003,
set-primary and delete-photo handlers) -/

/-- The "Set as primary" handler: a no-op when the active photo is already
first; otherwise `splice` the active element out and `unshift` it to the
front, setting the active index to 0.  (For an out-of-bounds index the
JS `splice` removes nothing and `unshift(undefined)` would prepend an
undefined slot; the claims quantify only over in-bounds indices, so that
degenerate case is modelled as a no-op.) -/
def setPrimary (ps : List String) (i : ℕ) : List String × ℕ :=
  if i = 0 then (ps, i)
  else
    match ps.get? i with
    | some cur => (cur :: ps.eraseIdx i, 0)
    | none => (ps, i)

/-- The "Delete photo" handler: a no-op on an empty list; otherwise
`splice(activeIdx, 1)` and clamp the index with `Math.max(0, activeIdx - 1)`
(truncated subtraction on ℕ). -/
def deletePhoto (ps : List String) (i : ℕ) : List String × ℕ :=
  if ps.isEmpty then (ps, i)
  else (ps.eraseIdx i, i - 1)

/-- `activeSrc`: `photos[activeIdx]?.src || null`. -/
def activeSrc (ps : List String) (i : ℕ) : Option String := ps.get? i

/-- C9: for an in-bounds active index, "set as primary" moves the active
element to the front (keeping the rest, same length) and sets the index to
0, which is in bounds; deletion removes exactly the element at the active
index and clamps the index to `activeIdx - 1`, which is in bounds whenever
the remaining list is non-empty, while on the now-empty list the active
source is null. -/
theorem C9_photo_ops (ps : List String) (i : ℕ) (h : i < ps.length) :
    ((setPrimary ps i).1 = ps.get ⟨i, h⟩ :: ps.eraseIdx i ∧
     (setPrimary ps i).2 = 0 ∧
     (setPrimary ps i).1.length = ps.length ∧
     (setPrimary ps i).2 < (setPrimary ps i).1.length) ∧
    ((deletePhoto ps i).1 = ps.eraseIdx i ∧
     (deletePhoto ps i).2 = i - 1 ∧
     ((deletePhoto ps i).1 ≠ [] →
       (deletePhoto ps i).2 < (deletePhoto ps i).1.length) ∧
     ((deletePhoto ps i).1 = [] →
       activeSrc (deletePhoto ps i).1 (deletePhoto ps i).2 = none)) := by
  have hlen : (ps.eraseIdx i).length = ps.length - 1 := by
    rw [List.length_eraseIdx]
    simp [h]
  have hsp : setPrimary ps i = (ps.get ⟨i, h⟩ :: ps.eraseIdx i, 0) := by
    by_cases hi : i = 0
    · subst hi
      cases ps with
      | nil => simp at h
      | cons a t => simp [setPrimary, List.eraseIdx]
    · simp [setPrimary, hi, List.getElem?_eq_getElem h]
  have hdp : deletePhoto ps i = (ps.eraseIdx i, i - 1) := by
    cases ps with
    | nil => simp at h
    | cons a t => simp [deletePhoto]
  refine ⟨⟨by rw [hsp], by rw [hsp], ?_, ?_⟩, ⟨by rw [hdp], by rw [hdp], ?_, ?_⟩⟩
  · rw [hsp]
    simp only [List.length_cons, hlen]
    omega
  · rw [hsp]
    simp only [List.length_cons]
    omega
  · rw [hdp]
    intro hne
    have hpos : 0 < (ps.eraseIdx i).length := List.length_pos.2 hne
    simp only [hlen] at hpos ⊢
    omega
  · rw [hdp]
    intro hnil
    have hnil2 : ps.eraseIdx i = [] := hnil
    simp [activeSrc, hnil2]

/-- C9 witness: the theorem applied to the three-photo list with active
index 1. -/
theorem C9_witness :
    (setPrimary ["a", "b", "c"] 1).1 = ["b", "a", "c"] ∧
    (setPrimary ["a", "b", "c"] 1).2 = 0 ∧
    (deletePhoto ["a", "b", "c"] 1).1 = ["a", "c"] ∧
    (deletePhoto ["a", "b", "c"] 1).2 = 0 := by
  have hmain := C9_photo_ops ["a", "b", "c"] 1 (by norm_num)
  refine ⟨?_, hmain.1.2.1, ?_, hmain.2.2.1⟩
  · rw [hmain.1.1]
    rfl
  · rw [hmain.2.1]
    rfl

/-! ## Borehole CSV export (src/unnamed/part_004, `exportBoreholeCSV`) -/

/-- `replaceAll('\n', ' ')`, applied to interval descriptions and notes. -/
def stripNl : List Char → List Char
  | [] => []
  | c :: cs => (if c = '\n' then ' ' else c) :: stripNl cs

/-- `replaceAll('"', '""')`: double every embedded double quote. -/
def doubleQuotes : List Char → List Char
  | [] => []
  | c :: cs => if c = '"' then '"' :: '"' :: doubleQuotes cs else c :: doubleQuotes cs

/-- One emitted CSV cell:
`String(c).includes(',') ? `"${String(c).replaceAll('"', '""')}"` : String(c)`.
Note the quoting condition tests only for a comma. -/
def csvField (c : List Char) : List Char :=
  if ',' ∈ c then '"' :: doubleQuotes c ++ ['"'] else c

/-- Standard CSV quoting: wrap in double quotes, doubling embedded ones
(what the claim asserts for every field containing a comma or a quote). -/
def quoteWrapped (c : List Char) : List Char :=
  '"' :: doubleQuotes c ++ ['"']

/-- `Array.prototype.join(sep)`. -/
def joinSep (sep : Char) : List (List Char) → List Char
  | [] => []
  | [x] => x
  | x :: y :: t => x ++ sep :: joinSep sep (y :: t)

/-- One borehole depth interval (`{from, to, unit, description, notes}`);
the `from`/`to` fields are renamed since `from` is a Lean keyword.  The
JS `?? ''` / `|| ''` guards make each field a plain string here. -/
structure Interval where
  fromDepth : List Char
  toDepth : List Char
  unit : List Char
  description : List Char
  notes : List Char

/-- `exportBoreholeCSV(bh)`: a header row plus one row per interval (with
newlines in description/notes replaced by spaces), every cell passed
through `csvField`, cells joined by commas and rows by newlines. -/
def exportBoreholeCSV (ivs : List Interval) : List Char :=
  let rows : List (List (List Char)) :=
    ["From_m".data, "To_m".data, "Unit".data, "Description".data, "Notes".data] ::
    ivs.map (fun iv =>
      [iv.fromDepth, iv.toDepth, iv.unit, stripNl iv.description, stripNl iv.notes])
  joinSep '\n' (rows.map (fun r => joinSep ',' (r.map csvField)))

/-- Newline replacement is the identity on newline-free strings. -/
theorem stripNl_id (s : List Char) (h : '\n' ∉ s) : stripNl s = s := by
  induction s with
  | nil => rfl
  | cons c cs ih =>
    have hc : c ≠ '\n' := fun e => h (e ▸ List.mem_cons_self c cs)
    have hcs : '\n' ∉ cs := fun m => h (List.mem_cons_of_mem c m)
    simp [stripNl, hc, ih hcs]

/-- Quote doubling is the identity on quote-free strings. -/
theorem doubleQuotes_id (s : List Char) (h : '"' ∉ s) : doubleQuotes s = s := by
  induction s with
  | nil => rfl
  | cons c cs ih =>
    have hc : c ≠ '"' := fun e => h (e ▸ List.mem_cons_self c cs)
    have hcs : '"' ∉ cs := fun m => h (List.mem_cons_of_mem c m)
    simp [doubleQuotes, hc, ih hcs]

/-- The last character of `l ++ [c]` is `c`. -/
theorem lastChar_concat (l : List Char) (c : Char) :
    lastChar (l ++ [c]) = some c := by
  induction l with
  | nil => rfl
  | cons a t ih =>
    cases t with
    | nil => simp [lastChar]
    | cons b u => simpa [lastChar] using ih

/-- Dropping the last character of `l ++ [c]` gives `l`. -/
theorem dropLastChar_concat (l : List Char) (c : Char) :
    dropLastChar (l ++ [c]) = l := by
  induction l with
  | nil => rfl
  | cons a t ih =>
    cases t with
    | nil => simp [dropLastChar]
    | cons b u => simpa [dropLastChar] using ih

/-- The quote-stripping cell transform recovers the body of a wrapped cell. -/
theorem stripQuotes_wrapped (s : List Char) :
    stripQuotes ('"' :: s ++ ['"']) = s := by
  simp [stripQuotes, lastChar_concat, dropLastChar_concat]

/-- `splitQuoted` always yields at least one segment. -/
theorem splitQuoted_ne_nil (l : List Char) : splitQuoted l ≠ [] := by
  induction l with
  | nil => simp [splitQuoted]
  | cons c cs ih =>
    simp only [splitQuoted]
    cases hcs : splitQuoted cs with
    | nil => exact absurd hcs ih
    | cons h t =>
      by_cases hc : c = ',' ∧ quoteCount cs % 2 = 0 <;> simp [hc]

/-- A comma followed by an even number of quotes splits. -/
theorem splitQuoted_comma (l : List Char) (he : quoteCount l % 2 = 0) :
    splitQuoted (',' :: l) = [] :: splitQuoted l := by
  cases hs : splitQuoted l with
  | nil => exact absurd hs (splitQuoted_ne_nil l)
  | cons a t => simp [splitQuoted, hs, he]

/-- Inside a quoted region (odd quote parity ahead) nothing splits: pushing
a quote-free prefix, its closing quote, a comma and an even-parity tail
through `splitQuoted` keeps the quoted cell intact. -/
theorem splitQuoted_quoted_aux (l₂ : List Char) (he : quoteCount l₂ % 2 = 0)
    (s : List Char) (hq : '"' ∉ s) :
    splitQuoted (s ++ '"' :: ',' :: l₂) = (s ++ ['"']) :: splitQuoted l₂ := by
  induction s with
  | nil =>
    cases hs : splitQuoted l₂ with
    | nil => exact absurd hs (splitQuoted_ne_nil l₂)
    | cons a t =>
      have hcomma := splitQuoted_comma l₂ he
      rw [hs] at hcomma
      simp [splitQuoted, hcomma, hs, he]
  | cons c cs ih =>
    have hc : c ≠ '"' := fun e => hq (e ▸ List.mem_cons_self c cs)
    have hcs : '"' ∉ cs := fun m => hq (List.mem_cons_of_mem c m)
    have hcount : quoteCount (cs ++ '"' :: ',' :: l₂) % 2 = 1 := by
      have h0 : (cs.count '"') = 0 := List.count_eq_zero.2 hcs
      simp [quoteCount, List.count_append, List.count_cons, h0] at he ⊢
      omega
    simp only [List.cons_append, splitQuoted, List.append_eq]
    rw [ih hcs]
    have hnot : ¬(c = ',' ∧ quoteCount (cs ++ '"' :: ',' :: l₂) % 2 = 0) := by
      intro hcon
      rw [hcount] at hcon
      omega
    simp [hnot]

/-- Splitting a line that consists of one wrapped quote-free cell, a comma
and an even-parity tail. -/
theorem splitQuoted_quoted (s l₂ : List Char) (hq : '"' ∉ s)
    (he : quoteCount l₂ % 2 = 0) :
    splitQuoted (('"' :: s ++ ['"']) ++ ',' :: l₂) =
      ('"' :: s ++ ['"']) :: splitQuoted l₂ := by
  have haux := splitQuoted_quoted_aux l₂ he s hq
  have hshape : ('"' :: s ++ ['"']) ++ ',' :: l₂ = '"' :: (s ++ '"' :: ',' :: l₂) := by
    simp
  rw [hshape]
  simp only [splitQuoted]
  rw [haux]
  have hc : ¬(('"' : Char) = ',' ∧ quoteCount (s ++ '"' :: ',' :: l₂) % 2 = 0) := by
    intro hcon
    exact absurd hcon.1 (by decide)
  simp [hc]

/-- Characters of `doubleQuotes f` are quotes or characters of `f`. -/
theorem mem_doubleQuotes {c : Char} {f : List Char} :
    c ∈ doubleQuotes f → c = '"' ∨ c ∈ f := by
  induction f with
  | nil => intro hmem; simp [doubleQuotes] at hmem
  | cons x xs ih =>
    intro hmem
    by_cases hx : x = '"'
    · subst hx
      rw [show doubleQuotes ('"' :: xs) = '"' :: '"' :: doubleQuotes xs by
        simp [doubleQuotes]] at hmem
      rcases List.mem_cons.1 hmem with h1 | hmem
      · exact Or.inl h1
      rcases List.mem_cons.1 hmem with h1 | hmem
      · exact Or.inl h1
      rcases ih hmem with h2 | h2
      · exact Or.inl h2
      · exact Or.inr (List.mem_cons_of_mem _ h2)
    · rw [show doubleQuotes (x :: xs) = x :: doubleQuotes xs by
        simp [doubleQuotes, hx]] at hmem
      rcases List.mem_cons.1 hmem with h1 | hmem
      · exact Or.inr (h1 ▸ List.mem_cons_self x xs)
      rcases ih hmem with h2 | h2
      · exact Or.inl h2
      · exact Or.inr (List.mem_cons_of_mem _ h2)

/-- Characters of an emitted cell are quotes or characters of the field. -/
theorem mem_csvField {c : Char} {f : List Char} :
    c ∈ csvField f → c = '"' ∨ c ∈ f := by
  intro hmem
  by_cases hf : ',' ∈ f
  · rw [show csvField f = '"' :: (doubleQuotes f ++ ['"']) by
      simp [csvField, hf]] at hmem
    rcases List.mem_cons.1 hmem with h1 | hmem
    · exact Or.inl h1
    rcases List.mem_append.1 hmem with h1 | h1
    · exact mem_doubleQuotes h1
    · rcases List.mem_singleton.1 h1 with h2
      exact Or.inl h2
  · rw [show csvField f = f by simp [csvField, hf]] at hmem
    exact Or.inr hmem

/-- A comma-free line is one single cell. -/
theorem splitQuoted_no_comma (l : List Char) (hc : ',' ∉ l) :
    splitQuoted l = [l] := by
  induction l with
  | nil => rfl
  | cons x xs ih =>
    have hx : x ≠ ',' := fun e => hc (e ▸ List.mem_cons_self x xs)
    have hxs : ',' ∉ xs := fun m => hc (List.mem_cons_of_mem x m)
    simp [splitQuoted, ih hxs, hx]

/-- A quote-free prefix followed by one closing quote stays one cell: each
comma inside it sees an odd number of quotes ahead. -/
theorem splitQuoted_end_quote (s : List Char) (hq : '"' ∉ s) :
    splitQuoted (s ++ ['"']) = [s ++ ['"']] := by
  induction s with
  | nil => rfl
  | cons x xs ih =>
    have hxs : '"' ∉ xs := fun m => hq (List.mem_cons_of_mem x m)
    have hcount : quoteCount (xs ++ ['"']) % 2 = 1 := by
      have h0 : xs.count '"' = 0 := List.count_eq_zero.2 hxs
      simp [quoteCount, List.count_append, h0]
    simp only [List.cons_append, splitQuoted, List.append_eq]
    rw [ih hxs]
    have hnot : ¬(x = ',' ∧ quoteCount (xs ++ ['"']) % 2 = 0) := by
      intro hcon
      rw [hcount] at hcon
      omega
    simp [hnot]

/-- A single wrapped quote-free cell splits into itself. -/
theorem splitQuoted_wrapped (s : List Char) (hq : '"' ∉ s) :
    splitQuoted ('"' :: s ++ ['"']) = ['"' :: s ++ ['"']] := by
  simp only [splitQuoted, List.append_eq]
  rw [splitQuoted_end_quote s hq]
  have hnot : ¬(('"' : Char) = ',' ∧ quoteCount (s ++ ['"']) % 2 = 0) := by
    intro hcon
    exact absurd hcon.1 (by decide)
  simp [hnot]

/-- A comma-free cell followed by a separator comma and an even-parity tail
splits off as one cell. -/
theorem splitQuoted_field (c l₂ : List Char) (hc : ',' ∉ c)
    (he : quoteCount l₂ % 2 = 0) :
    splitQuoted (c ++ ',' :: l₂) = c :: splitQuoted l₂ := by
  induction c with
  | nil => simpa using splitQuoted_comma l₂ he
  | cons x xs ih =>
    have hx : x ≠ ',' := fun e => hc (e ▸ List.mem_cons_self x xs)
    have hxs : ',' ∉ xs := fun m => hc (List.mem_cons_of_mem x m)
    simp only [List.cons_append, splitQuoted, List.append_eq]
    rw [ih hxs]
    have hnot : ¬(x = ',' ∧ quoteCount (xs ++ ',' :: l₂) % 2 = 0) :=
      fun hcon => hx hcon.1
    simp [hnot]

/-- An emitted cell of a quote-free field carries an even number of quotes
(two when wrapped, none otherwise). -/
theorem quoteCount_csvField (f : List Char) (hq : '"' ∉ f) :
    quoteCount (csvField f) % 2 = 0 := by
  have h0 : f.count '"' = 0 := List.count_eq_zero.2 hq
  by_cases hf : ',' ∈ f
  · simp [csvField, hf, quoteCount, List.count_append, List.count_cons,
      doubleQuotes_id f hq, h0]
  · simp [csvField, hf, quoteCount, h0]

/-- Unfolding `join` on a two-or-more-element list. -/
theorem joinSep_cons_cons (sep : Char) (x y : List Char)
    (t : List (List Char)) :
    joinSep sep (x :: y :: t) = x ++ sep :: joinSep sep (y :: t) := rfl

/-- A joined row over quote-free fields carries an even number of quotes. -/
theorem quoteCount_rowJoin (fs : List (List Char))
    (h : ∀ f ∈ fs, '"' ∉ f) :
    quoteCount (joinSep ',' (fs.map csvField)) % 2 = 0 := by
  induction fs with
  | nil => rfl
  | cons f rest ih =>
    cases rest with
    | nil =>
      simpa [joinSep] using quoteCount_csvField f (h f (List.mem_cons_self f []))
    | cons g t =>
      have hf := quoteCount_csvField f (h f (List.mem_cons_self f (g :: t)))
      have hr := ih (fun x hx => h x (List.mem_cons_of_mem f hx))
      have hsum : quoteCount (joinSep ',' (List.map csvField (f :: g :: t))) =
          quoteCount (csvField f) +
          quoteCount (joinSep ',' (List.map csvField (g :: t))) := by
        rw [show joinSep ',' (List.map csvField (f :: g :: t)) =
          csvField f ++ ',' :: joinSep ',' (List.map csvField (g :: t)) from rfl]
        simp [quoteCount, List.count_append, List.count_cons]
      rw [hsum]
      omega

/-- Splitting a joined row of quote-free fields recovers the cells. -/
theorem splitQuoted_rowJoin (fs : List (List Char)) (hne : fs ≠ [])
    (h : ∀ f ∈ fs, '"' ∉ f) :
    splitQuoted (joinSep ',' (fs.map csvField)) = fs.map csvField := by
  induction fs with
  | nil => exact absurd rfl hne
  | cons f rest ih =>
    have hqf := h f (List.mem_cons_self f rest)
    cases rest with
    | nil =>
      show splitQuoted (csvField f) = [csvField f]
      by_cases hf : ',' ∈ f
      · rw [show csvField f = '"' :: f ++ ['"'] by
          simp [csvField, hf, doubleQuotes_id f hqf]]
        exact splitQuoted_wrapped f hqf
      · rw [show csvField f = f by simp [csvField, hf]]
        exact splitQuoted_no_comma f hf
    | cons g t =>
      have hrest : ∀ x ∈ g :: t, '"' ∉ x :=
        fun x hx => h x (List.mem_cons_of_mem f hx)
      have heven := quoteCount_rowJoin (g :: t) hrest
      have hih := ih (by simp) hrest
      simp only [List.map_cons] at hih ⊢
      simp only [List.map_cons] at heven
      rw [show joinSep ',' (csvField f :: csvField g :: List.map csvField t) =
        csvField f ++ ',' :: joinSep ','
          (csvField g :: List.map csvField t) from rfl]
      by_cases hf : ',' ∈ f
      · rw [show csvField f = '"' :: f ++ ['"'] by
          simp [csvField, hf, doubleQuotes_id f hqf]]
        rw [splitQuoted_quoted f _ hqf heven, hih]
      · rw [show csvField f = f by simp [csvField, hf]]
        rw [splitQuoted_field f _ hf heven, hih]
/-- `lastChar` skips a leading character when the tail is non-empty. -/
theorem lastChar_cons_ne (a : Char) (l : List Char) (h : l ≠ []) :
    lastChar (a :: l) = lastChar l := by
  cases l with
  | nil => exact absurd rfl h
  | cons b t => rfl

/-- `lastChar` of an append with non-empty right part. -/
theorem lastChar_append_ne (l₁ l₂ : List Char) (h : l₂ ≠ []) :
    lastChar (l₁ ++ l₂) = lastChar l₂ := by
  induction l₁ with
  | nil => rfl
  | cons a t ih =>
    rw [List.cons_append, lastChar_cons_ne a _ (by
      intro hcon
      exact h (List.append_eq_nil.1 hcon).2), ih]

/-- The last character is a member. -/
theorem lastChar_mem {l : List Char} {x : Char} (h : lastChar l = some x) :
    x ∈ l := by
  induction l with
  | nil => simp [lastChar] at h
  | cons a t ih =>
    cases t with
    | nil =>
      simp only [lastChar, Option.some.injEq] at h
      exact h ▸ List.mem_cons_self a []
    | cons b u =>
      rw [show lastChar (a :: b :: u) = lastChar (b :: u) from rfl] at h
      exact List.mem_cons_of_mem a (ih h)

/-- `head?` of an append with non-empty left part. -/
theorem head_append_ne (l₁ l₂ : List Char) (h : l₁ ≠ []) :
    (l₁ ++ l₂).head? = l₁.head? := by
  cases l₁ with
  | nil => exact absurd rfl h
  | cons a t => rfl

/-- `lastChar` is the head of the reversed list. -/
theorem lastChar_eq_reverse_head (l : List Char) :
    lastChar l = l.reverse.head? := by
  induction l with
  | nil => rfl
  | cons a t ih =>
    cases t with
    | nil => rfl
    | cons b u =>
      rw [show lastChar (a :: b :: u) = lastChar (b :: u) from rfl, ih,
        show (a :: b :: u).reverse = (b :: u).reverse ++ [a] by
          rw [List.reverse_cons],
        head_append_ne _ _ (by simp)]

/-- The leading-quote strip of `stripQuotes` is the identity on a cell
whose head is not a quote. -/
theorem head_match_id (a : Char) (t : List Char) (ha : a ≠ '"') :
    (match a :: t with
      | '"' :: rest => rest
      | other => other) = a :: t := by
  split
  · next rest heq =>
      cases heq
      exact absurd rfl ha
  · rfl

/-- `stripQuotes` leaves a quote-free cell unchanged. -/
theorem stripQuotes_quote_free (f : List Char) (hq : '"' ∉ f) :
    stripQuotes f = f := by
  have hlast : lastChar f ≠ some '"' := fun hcon => hq (lastChar_mem hcon)
  cases f with
  | nil => rfl
  | cons a t =>
    have ha : a ≠ '"' := fun e => hq (e ▸ List.mem_cons_self a t)
    simp only [stripQuotes]
    rw [head_match_id a t ha, if_neg hlast]

/-- Parsing an emitted cell of a quote-free field recovers the field. -/
theorem stripQuotes_csvField (f : List Char) (hq : '"' ∉ f) :
    stripQuotes (csvField f) = f := by
  by_cases hf : ',' ∈ f
  · rw [show csvField f = '"' :: f ++ ['"'] by
      simp [csvField, hf, doubleQuotes_id f hq]]
    exact stripQuotes_wrapped f
  · rw [show csvField f = f by simp [csvField, hf]]
    exact stripQuotes_quote_free f hq

/-- An optional character that is absent or not whitespace. -/
def wsFree (o : Option Char) : Bool :=
  match o with
  | none => true
  | some x => !isWS x

/-- A field value the CSV export/import round-trip leaves untouched: free
of double quotes and newlines, with no leading or trailing whitespace. -/
def cleanField (f : List Char) : Prop :=
  '"' ∉ f ∧ '\n' ∉ f ∧ wsFree f.head? = true ∧ wsFree (lastChar f) = true

instance (f : List Char) : Decidable (cleanField f) := by
  unfold cleanField
  infer_instance

/-- `trim` is the identity when both ends are non-whitespace. -/
theorem jsTrim_id_of_ends (l : List Char) (hh : wsFree l.head? = true)
    (hl : wsFree (lastChar l) = true) : jsTrim l = l := by
  cases l with
  | nil => rfl
  | cons a t =>
    have ha : isWS a = false := by simpa [wsFree] using hh
    have h1 : List.dropWhile isWS (a :: t) = a :: t := by
      simp [List.dropWhile_cons, ha]
    rw [jsTrim, h1]
    cases hrev : (a :: t).reverse with
    | nil => simp at hrev
    | cons b u =>
      have hb : isWS b = false := by
        have hlb : lastChar (a :: t) = some b := by
          rw [lastChar_eq_reverse_head, hrev]
          rfl
        rw [hlb] at hl
        simpa [wsFree] using hl
      have h2 : List.dropWhile isWS (b :: u) = b :: u := by
        simp [List.dropWhile_cons, hb]
      rw [h2, ← hrev, List.reverse_reverse]

/-- `stripCR` is the identity when the line does not end in whitespace. -/
theorem stripCR_of_noWS (l : List Char) (h : wsFree (lastChar l) = true) :
    stripCR l = l := by
  cases hlc : lastChar l with
  | none => simp [stripCR, hlc]
  | some x =>
    rw [hlc] at h
    have hx : x ≠ '\r' := by
      intro e
      subst e
      simp [wsFree, isWS] at h
    simp [stripCR, hlc, hx]

/-- The five fields of an interval, in emitted column order. -/
def fieldsOf (iv : Interval) : List (List Char) :=
  [iv.fromDepth, iv.toDepth, iv.unit, iv.description, iv.notes]

/-- The emitted data line of one interval (after newline stripping has
been resolved away for newline-free fields). -/
def rowLine (iv : Interval) : List Char :=
  joinSep ',' ((fieldsOf iv).map csvField)

/-- A character other than the separator and the quote that occurs in no
field occurs nowhere in the joined row. -/
theorem not_mem_rowJoin {c : Char} (hc1 : c ≠ ',') (hc2 : c ≠ '"')
    (fs : List (List Char)) (h : ∀ f ∈ fs, c ∉ f) :
    c ∉ joinSep ',' (fs.map csvField) := by
  induction fs with
  | nil => simp [joinSep]
  | cons f rest ih =>
    have hcf : c ∉ csvField f := by
      intro hmem
      rcases mem_csvField hmem with h1 | h1
      · exact hc2 h1
      · exact h f (List.mem_cons_self f rest) h1
    cases rest with
    | nil => exact hcf
    | cons g t =>
      rw [show List.map csvField (f :: g :: t) =
        csvField f :: csvField g :: List.map csvField t from rfl,
        joinSep_cons_cons]
      intro hmem
      rcases List.mem_append.1 hmem with h1 | h1
      · exact hcf h1
      · rcases List.mem_cons.1 h1 with h2 | h2
        · exact hc1 h2
        · exact ih (fun x hx => h x (List.mem_cons_of_mem f hx)) h2

/-- A join of two or more cells is never empty. -/
theorem joinSep_cons_cons_ne_nil (sep : Char) (x y : List Char)
    (t : List (List Char)) : joinSep sep (x :: y :: t) ≠ [] := by
  rw [joinSep_cons_cons]
  simp

/-- A join of non-empty lines is non-empty. -/
theorem joinSep_ne_nil (sep : Char) (ls : List (List Char)) (hne : ls ≠ [])
    (h : ∀ l ∈ ls, l ≠ []) : joinSep sep ls ≠ [] := by
  cases ls with
  | nil => exact absurd rfl hne
  | cons l t =>
    cases t with
    | nil => exact h l (List.mem_cons_self l [])
    | cons m u => exact joinSep_cons_cons_ne_nil sep l m u

/-- A joined row over quote-free fields whose last field has no trailing
whitespace ends in a non-whitespace character. -/
theorem lastChar_rowJoin_noWS (fs : List (List Char)) (hne : fs ≠ [])
    (h : ∀ f ∈ fs, '"' ∉ f ∧ wsFree (lastChar f) = true) :
    wsFree (lastChar (joinSep ',' (fs.map csvField))) = true := by
  induction fs with
  | nil => exact absurd rfl hne
  | cons f rest ih =>
    cases rest with
    | nil =>
      show wsFree (lastChar (csvField f)) = true
      obtain ⟨hq, hws⟩ := h f (List.mem_cons_self f [])
      by_cases hf : ',' ∈ f
      · rw [show csvField f = '"' :: f ++ ['"'] by
          simp [csvField, hf, doubleQuotes_id f hq]]
        rw [show ('"' :: f ++ ['"']) = ('"' :: f) ++ ['"'] from rfl,
          lastChar_concat]
        rfl
      · rw [show csvField f = f by simp [csvField, hf]]
        exact hws
    | cons g t =>
      have hih : wsFree (lastChar (joinSep ','
          (csvField g :: List.map csvField t))) = true :=
        ih (by simp) (fun x hx => h x (List.mem_cons_of_mem f hx))
      rw [show List.map csvField (f :: g :: t) =
        csvField f :: csvField g :: List.map csvField t from rfl,
        joinSep_cons_cons]
      rw [lastChar_append_ne _ _ (by simp)]
      cases hJ : joinSep ',' (csvField g :: List.map csvField t) with
      | nil => rfl
      | cons b u =>
        rw [lastChar_cons_ne ',' _ (by simp)]
        rw [hJ] at hih
        exact hih

/-- The last character of joined non-empty whitespace-clean lines is
non-whitespace. -/
theorem lastChar_joinLines_noWS (ls : List (List Char)) (hne : ls ≠ [])
    (h : ∀ l ∈ ls, l ≠ [] ∧ wsFree (lastChar l) = true) :
    wsFree (lastChar (joinSep '\n' ls)) = true := by
  induction ls with
  | nil => exact absurd rfl hne
  | cons l rest ih =>
    cases rest with
    | nil => exact (h l (List.mem_cons_self l [])).2
    | cons m u =>
      rw [joinSep_cons_cons, lastChar_append_ne _ _ (by simp),
        lastChar_cons_ne '\n' _ (joinSep_ne_nil '\n' (m :: u) (by simp)
          (fun x hx => (h x (List.mem_cons_of_mem l hx)).1))]
      exact ih (by simp) (fun x hx => h x (List.mem_cons_of_mem l hx))

/-- Splitting joined newline-free lines at newlines recovers the lines. -/
theorem jsSplit_join (lines : List (List Char)) (hne : lines ≠ [])
    (h : ∀ l ∈ lines, '\n' ∉ l) :
    jsSplit '\n' (joinSep '\n' lines) = lines := by
  induction lines with
  | nil => exact absurd rfl hne
  | cons l rest ih =>
    cases rest with
    | nil => exact jsSplit_no_sep '\n' l (h l (List.mem_cons_self l []))
    | cons m u =>
      rw [joinSep_cons_cons,
        jsSplit_append '\n' _ _ (h l (List.mem_cons_self l (m :: u))),
        ih (by simp) (fun x hx => h x (List.mem_cons_of_mem l hx))]
/-- All five fields of an interval satisfy a clean-fields hypothesis. -/
theorem cleanFields_mem (iv : Interval)
    (h : cleanField iv.fromDepth ∧ cleanField iv.toDepth ∧
      cleanField iv.unit ∧ cleanField iv.description ∧ cleanField iv.notes) :
    ∀ f ∈ fieldsOf iv, cleanField f := by
  intro f hf
  simp only [fieldsOf, List.mem_cons, List.not_mem_nil, or_false] at hf
  rcases hf with hf | hf | hf | hf | hf <;> subst hf
  · exact h.1
  · exact h.2.1
  · exact h.2.2.1
  · exact h.2.2.2.1
  · exact h.2.2.2.2

/-- Parsing one emitted data line of clean fields recovers the fields. -/
theorem rowLine_parse (iv : Interval) (h : ∀ f ∈ fieldsOf iv, cleanField f) :
    (splitQuoted (rowLine iv)).map stripQuotes = fieldsOf iv := by
  rw [rowLine,
    splitQuoted_rowJoin _ (by simp [fieldsOf]) (fun f hf => (h f hf).1),
    List.map_map]
  have hpt : ∀ f ∈ fieldsOf iv, (stripQuotes ∘ csvField) f = id f :=
    fun f hf => stripQuotes_csvField f (h f hf).1
  rw [List.map_congr_left hpt, List.map_id]

/-- The emitted data line of clean fields is non-empty, newline-free,
ends in a non-whitespace character, and keeps no trailing CR. -/
theorem rowLine_props (iv : Interval) (h : ∀ f ∈ fieldsOf iv, cleanField f) :
    rowLine iv ≠ [] ∧ '\n' ∉ rowLine iv ∧
    wsFree (lastChar (rowLine iv)) = true ∧ stripCR (rowLine iv) = rowLine iv := by
  have hws : wsFree (lastChar (rowLine iv)) = true := by
    rw [rowLine]
    exact lastChar_rowJoin_noWS _ (by simp [fieldsOf])
      (fun f hf => ⟨(h f hf).1, (h f hf).2.2.2⟩)
  refine ⟨?_, ?_, hws, stripCR_of_noWS _ hws⟩
  · rw [rowLine, show (fieldsOf iv).map csvField =
      csvField iv.fromDepth :: csvField iv.toDepth ::
        [csvField iv.unit, csvField iv.description, csvField iv.notes] from rfl]
    exact joinSep_cons_cons_ne_nil ',' _ _ _
  · rw [rowLine]
    exact not_mem_rowJoin (by decide) (by decide) _
      (fun f hf => (h f hf).2.1)

/-- The object built from one parsed data row of trim-stable cells. -/
theorem buildRow (f1 f2 f3 f4 f5 : List Char)
    (h1 : jsTrim f1 = f1) (h2 : jsTrim f2 = f2) (h3 : jsTrim f3 = f3)
    (h4 : jsTrim f4 = f4) (h5 : jsTrim f5 = f5) :
    (["From_m".data, "To_m".data, "Unit".data, "Description".data,
      "Notes".data].enum).map (fun ih =>
        (String.mk (jsTrim ih.2),
         String.mk (jsTrim ([f1, f2, f3, f4, f5].getD ih.1 [])))) =
    [("From_m", String.mk f1), ("To_m", String.mk f2), ("Unit", String.mk f3),
     ("Description", String.mk f4), ("Notes", String.mk f5)] := by
  have hstep : (["From_m".data, "To_m".data, "Unit".data, "Description".data,
      "Notes".data].enum).map (fun ih =>
        (String.mk (jsTrim ih.2),
         String.mk (jsTrim ([f1, f2, f3, f4, f5].getD ih.1 [])))) =
      [(String.mk (jsTrim "From_m".data), String.mk (jsTrim f1)),
       (String.mk (jsTrim "To_m".data), String.mk (jsTrim f2)),
       (String.mk (jsTrim "Unit".data), String.mk (jsTrim f3)),
       (String.mk (jsTrim "Description".data), String.mk (jsTrim f4)),
       (String.mk (jsTrim "Notes".data), String.mk (jsTrim f5))] := rfl
  rw [hstep, h1, h2, h3, h4, h5]
  rfl

/-- C2 counterexample: the field `a"b` contains a double quote but no
comma, so `exportBoreholeCSV` emits it verbatim — not wrapped in quotes
with the quote doubled.  For the field `a,"b` (comma and quote) the
emitted cell `"a,""b"` re-parses through `parseCSV` to `a,""b`, not the
original value (the parser strips the surrounding quotes but never undoes
the doubling).  And a raw quote in one cell corrupts its neighbours: unit
`x"y` beside description `a,b` exports as `,,x"y,"a,b",`, whose re-parse
flips the comma-split quote parity and yields Unit "" and Description ""
— the description lands in the To_m column instead. -/
theorem C2_counterexample :
    csvField "a\"b".data = "a\"b".data ∧
    csvField "a\"b".data ≠ quoteWrapped "a\"b".data ∧
    objGet ((parseCSV (exportBoreholeCSV
        [⟨[], [], [], "a,\"b".data, []⟩])).getD 0 []) "Description" =
      some "a,\"\"b" ∧
    objGet ((parseCSV (exportBoreholeCSV
        [⟨[], [], "x\"y".data, "a,b".data, []⟩])).getD 0 []) "Description" =
      some "" ∧
    objGet ((parseCSV (exportBoreholeCSV
        [⟨[], [], "x\"y".data, "a,b".data, []⟩])).getD 0 []) "Unit" =
      some "" ∧
    objGet ((parseCSV (exportBoreholeCSV
        [⟨[], [], "x\"y".data, "a,b".data, []⟩])).getD 0 []) "To_m" =
      some "a,b" := by
  exact ⟨rfl, by decide, rfl, rfl, rfl, rfl⟩

/-- C2 (amended): quoting is triggered only by a comma.  A comma-free
field is emitted verbatim even when it contains a double quote; a field
containing a comma is wrapped in double quotes with embedded quotes
doubled.  Re-parsing the exported borehole CSV recovers every field of
every interval exactly, provided every field of the export is free of
double quotes and newlines and has no leading or trailing whitespace —
the proviso must cover the neighbouring fields too, because a raw double
quote in any unquoted cell flips the quote parity on which the comma
split of the rest of its line depends. -/
theorem C2_export_quoting (ivs : List Interval)
    (hclean : ∀ iv ∈ ivs,
      cleanField iv.fromDepth ∧ cleanField iv.toDepth ∧
      cleanField iv.unit ∧ cleanField iv.description ∧ cleanField iv.notes) :
    (∀ t : List Char, ',' ∉ t → csvField t = t) ∧
    (∀ t : List Char, ',' ∈ t → csvField t = quoteWrapped t) ∧
    parseCSV (exportBoreholeCSV ivs) = ivs.map (fun iv =>
      [("From_m", String.mk iv.fromDepth), ("To_m", String.mk iv.toDepth),
       ("Unit", String.mk iv.unit), ("Description", String.mk iv.description),
       ("Notes", String.mk iv.notes)]) := by
  have hmem : ∀ iv ∈ ivs, ∀ f ∈ fieldsOf iv, cleanField f :=
    fun iv hiv => cleanFields_mem iv (hclean iv hiv)
  refine ⟨fun t ht => by simp [csvField, ht],
          fun t ht => by simp [csvField, quoteWrapped, ht], ?_⟩
  have hexp : exportBoreholeCSV ivs =
      joinSep '\n' ("From_m,To_m,Unit,Description,Notes".data ::
        ivs.map rowLine) := by
    have h0 : exportBoreholeCSV ivs =
        joinSep '\n' ("From_m,To_m,Unit,Description,Notes".data ::
          ivs.map (fun iv => joinSep ',' (List.map csvField
            [iv.fromDepth, iv.toDepth, iv.unit, stripNl iv.description,
             stripNl iv.notes]))) := by
      simp only [exportBoreholeCSV, List.map_cons, List.map_map]
      rfl
    have h1 : ivs.map (fun iv => joinSep ',' (List.map csvField
        [iv.fromDepth, iv.toDepth, iv.unit, stripNl iv.description,
         stripNl iv.notes])) = ivs.map rowLine := by
      apply List.map_congr_left
      intro iv hiv
      rw [stripNl_id _ ((hclean iv hiv).2.2.2.1).2.1,
        stripNl_id _ ((hclean iv hiv).2.2.2.2).2.1]
      rfl
    rw [h0, h1]
  have hlines_all : ∀ l ∈ ("From_m,To_m,Unit,Description,Notes".data ::
      ivs.map rowLine), l ≠ [] ∧ '\n' ∉ l ∧
      wsFree (lastChar l) = true ∧ stripCR l = l := by
    intro l hl
    rcases List.mem_cons.1 hl with hl | hl
    · subst hl
      exact ⟨by simp, by decide, rfl, rfl⟩
    · obtain ⟨iv, hiv, hrw⟩ := List.mem_map.1 hl
      subst hrw
      exact rowLine_props iv (hmem iv hiv)
  have htrim : jsTrim (joinSep '\n'
      ("From_m,To_m,Unit,Description,Notes".data :: ivs.map rowLine)) =
      joinSep '\n' ("From_m,To_m,Unit,Description,Notes".data ::
        ivs.map rowLine) := by
    apply jsTrim_id_of_ends
    · cases hm : ivs.map rowLine with
      | nil => rfl
      | cons r rs =>
        rw [joinSep_cons_cons, head_append_ne _ _ (by decide)]
        rfl
    · exact lastChar_joinLines_noWS _ (by simp)
        (fun l hl => ⟨(hlines_all l hl).1, (hlines_all l hl).2.2.1⟩)
  have hsplit : splitLines (joinSep '\n'
      ("From_m,To_m,Unit,Description,Notes".data :: ivs.map rowLine)) =
      "From_m,To_m,Unit,Description,Notes".data :: ivs.map rowLine := by
    simp only [splitLines]
    rw [jsSplit_join _ (by simp) (fun l hl => (hlines_all l hl).2.1)]
    have hcr : List.map stripCR ("From_m,To_m,Unit,Description,Notes".data ::
        ivs.map rowLine) = List.map id
        ("From_m,To_m,Unit,Description,Notes".data :: ivs.map rowLine) :=
      List.map_congr_left (fun l hl => (hlines_all l hl).2.2.2)
    rw [hcr, List.map_id]
  rw [hexp]
  simp only [parseCSV]
  rw [htrim, hsplit]
  simp only [List.map_cons, List.map_map]
  rw [show (splitQuoted "From_m,To_m,Unit,Description,Notes".data).map
    stripQuotes = ["From_m".data, "To_m".data, "Unit".data,
      "Description".data, "Notes".data] from rfl]
  apply List.map_congr_left
  intro iv hiv
  simp only [Function.comp_apply]
  rw [rowLine_parse iv (hmem iv hiv)]
  have hcl := hmem iv hiv
  have ht1 : jsTrim iv.fromDepth = iv.fromDepth :=
    jsTrim_id_of_ends _ (hcl _ (by simp [fieldsOf])).2.2.1
      (hcl _ (by simp [fieldsOf])).2.2.2
  have ht2 : jsTrim iv.toDepth = iv.toDepth :=
    jsTrim_id_of_ends _ (hcl _ (by simp [fieldsOf])).2.2.1
      (hcl _ (by simp [fieldsOf])).2.2.2
  have ht3 : jsTrim iv.unit = iv.unit :=
    jsTrim_id_of_ends _ (hcl _ (by simp [fieldsOf])).2.2.1
      (hcl _ (by simp [fieldsOf])).2.2.2
  have ht4 : jsTrim iv.description = iv.description :=
    jsTrim_id_of_ends _ (hcl _ (by simp [fieldsOf])).2.2.1
      (hcl _ (by simp [fieldsOf])).2.2.2
  have ht5 : jsTrim iv.notes = iv.notes :=
    jsTrim_id_of_ends _ (hcl _ (by simp [fieldsOf])).2.2.1
      (hcl _ (by simp [fieldsOf])).2.2.2
  exact buildRow _ _ _ _ _ ht1 ht2 ht3 ht4 ht5

/-- C2 witness: the amended theorem applied to a two-interval export whose
comma-bearing fields round-trip. -/
theorem C2_witness :
    parseCSV (exportBoreholeCSV
      [⟨"0".data, "1".data, "U".data, "a,b".data, []⟩,
       ⟨"2".data, "3".data, "V w".data, "ok".data, "n,1".data⟩]) =
      [[("From_m", "0"), ("To_m", "1"), ("Unit", "U"),
        ("Description", "a,b"), ("Notes", "")],
       [("From_m", "2"), ("To_m", "3"), ("Unit", "V w"),
        ("Description", "ok"), ("Notes", "n,1")]] :=
  (C2_export_quoting
    [⟨"0".data, "1".data, "U".data, "a,b".data, []⟩,
     ⟨"2".data, "3".data, "V w".data, "ok".data, "n,1".data⟩]
    (by decide)).2.2

end GeoDescribe
